import Mathlib

/-!
Verification model of the `metabase_client` Python package
(`src/clients/python/metabase_client/client.py` and `types.py`).

The embedding is shallow: decoded JSON response bodies and caller-supplied
Python values are modelled by the inductive type `Json`; Python `None` and
JSON `null` are the same runtime value in Python, so everywhere the client
stores the result of `dict.get`, the model uses `Option Json` with `none`
playing the role of `None`, and a stored JSON `null` is collapsed to `none`
(exactly what `dict.get` hands back).  Machine integers do not overflow in
any modelled path, so `Int` is used directly.  The two wall-clock reads
(`time.strftime(...)` in `client.py` and `datetime.utcnow().isoformat()`
in the `APIError` constructor of `types.py`) are threaded through as
explicit string parameters `nowStrf` and `nowIso`.

HTTP transport is modelled by `HttpResult`: either a response (status code,
reason phrase, and the outcome of `response.json()`), or a raised
`requests.exceptions.RequestException` carrying `str(e)`.  A body on which
`response.json()` fails is `Sum.inl msg`; with requests ≥ 2.27 that raising
class (`requests.exceptions.JSONDecodeError`) is a subclass of both
`json.JSONDecodeError` and `RequestException`, which the model follows.

URL joining reproduces CPython 3.11 `urllib.parse.urljoin` (via `urlparse`,
`_splitparams`, `_splitnetloc`, `urlunparse`, `urlunsplit`), transcribed
over `List Char`.  The only elisions are the raising validations that never
fire on ASCII bracket-free input: the IPv6 `[`/`]` `ValueError` check and
the non-ASCII NFKC `_checknetloc` check; the model is total there.
-/

/-- Decoded JSON values / Python objects as the client sees them. -/
inductive Json where
  | null
  | bool (b : Bool)
  | num (n : Int)
  | str (s : String)
  | arr (xs : List Json)
  | obj (kvs : List (String × Json))

/-- Python truthiness (`bool(v)`) of a decoded value. -/
def pyTruthy : Json → Bool
  | .null => false
  | .bool b => b
  | .num n => n != 0
  | .str s => !s.isEmpty
  | .arr xs => !xs.isEmpty
  | .obj kvs => !kvs.isEmpty

/-- Truthiness of an `Optional` Python value (`None` is falsy). -/
def pyTruthyOpt : Option Json → Bool
  | none => false
  | some v => pyTruthy v

/-- First binding of key `k` in an ordered dict, as stored. -/
def dictLookup (kvs : List (String × Json)) (k : String) : Option Json :=
  match kvs.find? (fun p => p.1 = k) with
  | some p => some p.2
  | none => none

/-- `dict.get(k)`: `None` when the key is absent, and a stored JSON `null`
is itself Python `None`, so both collapse to `none`. -/
def pyGet (kvs : List (String × Json)) (k : String) : Option Json :=
  match dictLookup kvs k with
  | some Json.null => none
  | some v => some v
  | none => none

/-- `dict.get(k, d)`: the stored value when the key is present (even a
stored `null`, which is Python `None`), the default `d` otherwise. -/
def pyGetD (kvs : List (String × Json)) (k : String) (d : Json) : Option Json :=
  match dictLookup kvs k with
  | some Json.null => none
  | some v => some v
  | none => (match d with
      | Json.null => none
      | v => some v)

/-- `d[k] = v` on an insertion-ordered Python dict: replace in place when
the key exists, append otherwise. -/
def dictSet (d : List (String × Json)) (k : String) (v : Json) : List (String × Json) :=
  if d.any (fun p => p.1 = k) then
    d.map (fun p => if p.1 = k then (k, v) else p)
  else
    d ++ [(k, v)]

/-- `base.update(upd)` on string-valued dicts (session header merging). -/
def dictUpdateStr (base upd : List (String × String)) : List (String × String) :=
  upd.foldl
    (fun acc kv =>
      if acc.any (fun p => p.1 = kv.1) then
        acc.map (fun p => if p.1 = kv.1 then (kv.1, kv.2) else p)
      else
        acc ++ [kv])
    base

/-- One hex digit, lower case, as `json.dumps` emits in `\uXXXX` escapes. -/
def hexDigit (n : Nat) : Char :=
  if n < 10 then Char.ofNat (48 + n) else Char.ofNat (97 + (n - 10))

/-- Four-digit lowercase hex. -/
def hex4 (n : Nat) : String :=
  String.mk [hexDigit ((n / 4096) % 16), hexDigit ((n / 256) % 16),
             hexDigit ((n / 16) % 16), hexDigit (n % 16)]

/-- Escaping of one character inside a JSON string literal, following
`json.dumps` with its default `ensure_ascii=True`. -/
def jsonEscapeChar (c : Char) : String :=
  if c = '"' then "\\\""
  else if c = '\\' then "\\\\"
  else if c = Char.ofNat 10 then "\\n"
  else if c = Char.ofNat 13 then "\\r"
  else if c = Char.ofNat 9 then "\\t"
  else if c = Char.ofNat 8 then "\\b"
  else if c = Char.ofNat 12 then "\\f"
  else if c.toNat < 32 || c.toNat > 126 then
    if c.toNat < 65536 then "\\u" ++ hex4 c.toNat
    else
      "\\u" ++ hex4 (55296 + (c.toNat - 65536) / 1024) ++
      "\\u" ++ hex4 (56320 + (c.toNat - 65536) % 1024)
  else String.singleton c

/-- JSON string literal (quotes plus escaped content). -/
def jsonQuote (s : String) : String :=
  "\"" ++ (s.toList.map jsonEscapeChar).foldl (fun a b => a ++ b) "" ++ "\""

mutual

/-- `json.dumps(v)` with CPython's default separators `', '` and `': '`,
default `ensure_ascii`, and dict insertion order. -/
def jsonDumps : Json → String
  | .null => "null"
  | .bool true => "true"
  | .bool false => "false"
  | .num n => toString n
  | .str s => jsonQuote s
  | .arr xs => "[" ++ jsonDumpsList xs ++ "]"
  | .obj kvs => "\x7b" ++ jsonDumpsObj kvs ++ "\x7d"

/-- Comma-joined rendering of array elements. -/
def jsonDumpsList : List Json → String
  | [] => ""
  | [x] => jsonDumps x
  | x :: y :: rest => jsonDumps x ++ ", " ++ jsonDumpsList (y :: rest)

/-- Comma-joined rendering of object members. -/
def jsonDumpsObj : List (String × Json) → String
  | [] => ""
  | [kv] => jsonQuote kv.1 ++ ": " ++ jsonDumps kv.2
  | kv :: kw :: rest => jsonQuote kv.1 ++ ": " ++ jsonDumps kv.2 ++ ", " ++ jsonDumpsObj (kw :: rest)

end

/-! ### CPython 3.11 `urllib.parse` URL joining, transcribed over `List Char` -/

/-- Characters valid in scheme names (`scheme_chars`). -/
def schemeChar (c : Char) : Bool :=
  c.isAlpha || c.isDigit || c = '+' || c = '-' || c = '.'

/-- Removal of `_UNSAFE_URL_BYTES_TO_REMOVE` (tab, CR, LF). -/
def removeUnsafe (l : List Char) : List Char :=
  l.filter (fun c => !(c = Char.ofNat 9 || c = Char.ofNat 13 || c = Char.ofNat 10))

/-- The scheme-extraction step of `urlsplit`: split at the first `:` when
everything before it is a nonempty run of scheme characters starting with
an ASCII letter; otherwise keep the default scheme. -/
def splitSchemeL (url defaultScheme : List Char) : List Char × List Char :=
  let pre := url.takeWhile (fun c => c != ':')
  match url.dropWhile (fun c => c != ':') with
  | ':' :: rest =>
    (match pre with
     | [] => (defaultScheme, url)
     | c :: cs =>
       if c.isAlpha && (c :: cs).all schemeChar then ((c :: cs).map Char.toLower, rest)
       else (defaultScheme, url))
  | _ => (defaultScheme, url)

/-- Delimiters ending the network-location part (`_splitnetloc`). -/
def netlocDelim (c : Char) : Bool :=
  c = '/' || c = '?' || c = '#'

/-- `_splitnetloc(url, 2)` applied to the text after the `//`. -/
def splitNetlocL (url : List Char) : List Char × List Char :=
  (url.takeWhile (fun c => !netlocDelim c), url.dropWhile (fun c => !netlocDelim c))

/-- Result of `urlsplit`. -/
structure SplitUrl where
  scheme : List Char
  netloc : List Char
  path : List Char
  query : List Char
  fragment : List Char

/-- CPython 3.11 `urlsplit(url, scheme)` with `allow_fragments=True`.
The IPv6-bracket `ValueError` and the non-ASCII `_checknetloc` check are
elided (the model is total; both only fire on bracketed or non-ASCII
netlocs, which no modelled theorem quantifies over). -/
def urlsplitL (url0 scheme0 : List Char) : SplitUrl :=
  let url1 := removeUnsafe url0
  let scheme1 := removeUnsafe scheme0
  let su := splitSchemeL url1 scheme1
  let nu :=
    if su.2.take 2 = ['/', '/'] then splitNetlocL (su.2.drop 2) else ([], su.2)
  let uf :=
    if nu.2.contains '#' then
      (nu.2.takeWhile (fun c => c != '#'), (nu.2.dropWhile (fun c => c != '#')).drop 1)
    else (nu.2, [])
  let uq :=
    if uf.1.contains '?' then
      (uf.1.takeWhile (fun c => c != '?'), (uf.1.dropWhile (fun c => c != '?')).drop 1)
    else (uf.1, [])
  ⟨su.1, nu.1, uq.1, uq.2, uf.2⟩

/-- `_splitparams(url)`: split trailing `;params` of the last path segment. -/
def splitParamsL (url : List Char) : List Char × List Char :=
  if url.contains '/' then
    let beforeRev := url.reverse.dropWhile (fun c => c != '/')
    let after := (url.reverse.takeWhile (fun c => c != '/')).reverse
    if after.contains ';' then
      (beforeRev.reverse ++ after.takeWhile (fun c => c != ';'),
       (after.dropWhile (fun c => c != ';')).drop 1)
    else (url, [])
  else
    if url.contains ';' then
      (url.takeWhile (fun c => c != ';'), (url.dropWhile (fun c => c != ';')).drop 1)
    else (url, [])

/-- `uses_params` scheme list. -/
def usesParams : List String :=
  ["", "ftp", "hdl", "prospero", "http", "imap", "https", "shttp", "rtsp",
   "rtspu", "sip", "sips", "mms", "sftp", "tel"]

/-- `uses_relative` scheme list. -/
def usesRelative : List String :=
  ["", "ftp", "http", "gopher", "nntp", "imap", "wais", "file", "https",
   "shttp", "mms", "prospero", "rtsp", "rtspu", "sftp", "svn", "svn+ssh",
   "ws", "wss"]

/-- `uses_netloc` scheme list. -/
def usesNetloc : List String :=
  ["", "ftp", "http", "gopher", "nntp", "telnet", "imap", "wais", "file",
   "mms", "https", "shttp", "snews", "prospero", "rtsp", "rtspu", "rsync",
   "svn", "svn+ssh", "sftp", "nfs", "git", "git+ssh", "ws", "wss"]

/-- Result of `urlparse` (six components). -/
structure ParsedUrl where
  scheme : List Char
  netloc : List Char
  path : List Char
  params : List Char
  query : List Char
  fragment : List Char

/-- CPython 3.11 `urlparse(url, scheme)`. -/
def urlparseL (url scheme0 : List Char) : ParsedUrl :=
  let s := urlsplitL url scheme0
  if usesParams.contains (String.mk s.scheme) ∧ s.path.contains ';' then
    let pp := splitParamsL s.path
    ⟨s.scheme, s.netloc, pp.1, pp.2, s.query, s.fragment⟩
  else ⟨s.scheme, s.netloc, s.path, [], s.query, s.fragment⟩

/-- CPython 3.11 `urlunsplit`. -/
def urlunsplitL (scheme netloc url query fragment : List Char) : List Char :=
  let url1 :=
    if netloc ≠ [] ∨ (scheme ≠ [] ∧ usesNetloc.contains (String.mk scheme) ∧ url.take 2 ≠ ['/', '/']) then
      let url' := if url ≠ [] ∧ url.take 1 ≠ ['/'] then '/' :: url else url
      '/' :: '/' :: (netloc ++ url')
    else url
  let url2 := if scheme ≠ [] then scheme ++ ':' :: url1 else url1
  let url3 := if query ≠ [] then url2 ++ '?' :: query else url2
  if fragment ≠ [] then url3 ++ '#' :: fragment else url3

/-- CPython 3.11 `urlunparse`. -/
def urlunparseL (p : ParsedUrl) : List Char :=
  let url := if p.params ≠ [] then p.path ++ ';' :: p.params else p.path
  urlunsplitL p.scheme p.netloc url p.query p.fragment

/-- `path.split('/')` (Python `str.split` on a single separator). -/
def splitSlash : List Char → List (List Char)
  | [] => [[]]
  | c :: rest =>
    if c = '/' then [] :: splitSlash rest
    else
      match splitSlash rest with
      | [] => [[c]]
      | g :: gs => (c :: g) :: gs

/-- `'/'.join(segs)`. -/
def joinSlash : List (List Char) → List Char
  | [] => []
  | [x] => x
  | x :: y :: rest => x ++ '/' :: joinSlash (y :: rest)

/-- `segments[1:-1] = filter(None, segments[1:-1])`: drop empty interior
segments, keeping the first and last elements. -/
def interiorFilter (segs : List (List Char)) : List (List Char) :=
  match segs with
  | [] => []
  | [a] => [a]
  | a :: rest =>
    match rest.getLast? with
    | none => [a]
    | some z => a :: (rest.dropLast.filter (fun s => s ≠ [])) ++ [z]

/-- The `.`/`..` resolution loop of `urljoin` (a popped-empty list is the
caught `IndexError`). -/
def resolveSegments (segs : List (List Char)) : List (List Char) :=
  segs.foldl
    (fun acc seg =>
      if seg = ['.', '.'] then acc.dropLast
      else if seg = ['.'] then acc
      else acc ++ [seg])
    []

/-- CPython 3.11 `urljoin(base, url)` with `allow_fragments=True`. -/
def urljoinL (base url : List Char) : List Char :=
  if base = [] then url
  else if url = [] then base
  else
    let b := urlparseL base []
    let r := urlparseL url b.scheme
    if r.scheme ≠ b.scheme ∨ ¬ usesRelative.contains (String.mk r.scheme) then url
    else if usesNetloc.contains (String.mk r.scheme) ∧ r.netloc ≠ [] then
      urlunparseL ⟨r.scheme, r.netloc, r.path, r.params, r.query, r.fragment⟩
    else
      let netloc := if usesNetloc.contains (String.mk r.scheme) then b.netloc else r.netloc
      if r.path = [] ∧ r.params = [] then
        let query := if r.query = [] then b.query else r.query
        urlunparseL ⟨r.scheme, netloc, b.path, b.params, query, r.fragment⟩
      else
        let base_parts0 := splitSlash b.path
        let base_parts :=
          if base_parts0.getLast? ≠ some [] then base_parts0.dropLast else base_parts0
        let segments :=
          if r.path.take 1 = ['/'] then splitSlash r.path
          else interiorFilter (base_parts ++ splitSlash r.path)
        let resolved0 := resolveSegments segments
        let resolved :=
          if segments.getLast? = some ['.'] ∨ segments.getLast? = some ['.', '.'] then
            resolved0 ++ [[]]
          else resolved0
        let path0 := joinSlash resolved
        let path := if path0 = [] then ['/'] else path0
        urlunparseL ⟨r.scheme, netloc, path, r.params, r.query, r.fragment⟩

/-- `endpoint.lstrip('/')`. -/
def lstripSlashes (s : String) : String :=
  String.mk (s.toList.dropWhile (fun c => c = '/'))

/-- `url.rstrip('/')` (applied once, in the `MetaBaseConfig` constructor). -/
def rstripSlashes (s : String) : String :=
  String.mk ((s.toList.reverse.dropWhile (fun c => c = '/')).reverse)

/-- `urljoin` on strings. -/
def urljoinS (base url : String) : String :=
  String.mk (urljoinL base.toList url.toList)

/-- The URL built at `client.py:97`:
`urljoin(self.config.url + '/', endpoint.lstrip('/'))`. -/
def requestUrl (configUrl endpoint : String) : String :=
  urljoinS (configUrl ++ "/") (lstripSlashes endpoint)

/-! ### `types.py`: configuration, envelope and option types -/

/-- `MetaBaseConfig` after its constructor ran (`types.py:27`): the stored
`url` has already had trailing slashes stripped. -/
structure MetaBaseConfig where
  url : String
  api_key : String
  timeout : Int
  headers : List (String × String)
  debug : Bool

/-- The `MetaBaseConfig.__init__` normalization: `self.url = url.rstrip('/')`,
defaults `timeout=30000`, `headers={}`, `debug=False` are supplied by callers. -/
def MetaBaseConfig.make (url api_key : String) (timeout : Int)
    (headers : List (String × String)) (debug : Bool) : MetaBaseConfig :=
  { url := rstripSlashes url, api_key := api_key, timeout := timeout,
    headers := headers, debug := debug }

/-- `APIError` after its constructor ran (`types.py:65`).  Fields mirror the
Python attributes; `code`/`message`/`details` hold whatever was assigned
(`none` models Python `None`), while `timestamp` is always set because the
constructor replaces a falsy argument with `datetime.utcnow().isoformat()`. -/
structure APIError where
  code : Option Json
  message : Option Json
  details : Option Json
  timestamp : Json

/-- The `APIError.__init__` logic: `self.timestamp = timestamp or
datetime.utcnow().isoformat()`; `nowIso` is the clock read. -/
def APIError.make (code message details timestamp : Option Json) (nowIso : String) : APIError :=
  { code := code, message := message, details := details,
    timestamp :=
      match timestamp with
      | some v => if pyTruthy v then v else Json.str nowIso
      | none => Json.str nowIso }

/-- `APIResponse` (`types.py:45`): all six attributes, `none` = Python `None`. -/
structure APIResponse where
  data : Option Json
  count : Option Json
  limit : Option Json
  offset : Option Json
  has_next : Option Json
  error : Option APIError

/-- `APIResponse(error=e)` — every other attribute left at its `None` default. -/
def APIResponse.ofError (e : APIError) : APIResponse :=
  ⟨none, none, none, none, none, some e⟩

/-- `QueryOptions` after its constructor ran (`types.py:81`): `select`,
`where`, `joins`, `group_by`, `having` have been defaulted to empty
collections, `order`/`limit`/`offset` stay optional. -/
structure QueryOptions where
  select : List String
  where_ : List (String × Json)
  order : Option String
  limit : Option Int
  offset : Option Int
  group_by : List String
  having : List (String × Json)

/-- `InsertOptions` (`types.py:121`): `returning` defaulted to `[]`. -/
structure InsertOptions where
  returning : List String

/-- `UpdateOptions` (`types.py:128`), also used for deletes: `returning`
defaulted to `[]`. -/
structure UpdateOptions where
  returning : List String

/-! ### `client.py`: the request pipeline -/

/-- `','.join(xs)`. -/
def commaJoin (xs : List String) : String :=
  match xs with
  | [] => ""
  | [x] => x
  | x :: y :: rest => x ++ "," ++ commaJoin (y :: rest)

/-- Session headers set up in `MetaBaseClient.__init__` (`client.py:42`):
three defaults, then `config.headers` merged on top via `dict.update`. -/
def sessionHeaders (cfg : MetaBaseConfig) : List (String × String) :=
  dictUpdateStr
    [("Authorization", "Bearer " ++ cfg.api_key),
     ("Content-Type", "application/json"),
     ("User-Agent", "metabase-client-python/1.0.0")]
    cfg.headers

/-- The serialization branch of the `where` loop in `query`
(`client.py:186-189`): `json.dumps(value)` for dicts and lists,
`str(value)` for everything else. -/
def queryWhereValue (value : Json) : Json :=
  match value with
  | .obj kvs => .str (jsonDumps (.obj kvs))
  | .arr xs => .str (jsonDumps (.arr xs))
  | .str s => .str s
  | .num n => .str (toString n)
  | .bool true => .str "True"
  | .bool false => .str "False"
  | .null => .str "None"

/-- The serialization branch of the `where_conditions` loop in `update`
(`client.py:271-274`). -/
def updateWhereValue (value : Json) : Json :=
  match value with
  | .obj kvs => .str (jsonDumps (.obj kvs))
  | .arr xs => .str (jsonDumps (.arr xs))
  | .str s => .str s
  | .num n => .str (toString n)
  | .bool true => .str "True"
  | .bool false => .str "False"
  | .null => .str "None"

/-- The serialization branch of the `where_conditions` loop in `delete`
(`client.py:327-330`). -/
def deleteWhereValue (value : Json) : Json :=
  match value with
  | .obj kvs => .str (jsonDumps (.obj kvs))
  | .arr xs => .str (jsonDumps (.arr xs))
  | .str s => .str s
  | .num n => .str (toString n)
  | .bool true => .str "True"
  | .bool false => .str "False"
  | .null => .str "None"

/-- One `if options.<field>: params[k] = options.<field>` step of `query`
for an integer-valued option: skipped when the option is `None` **or** `0`
(Python truthiness). -/
def intOptStage (p : List (String × Json)) (k : String) (x : Option Int) :
    List (String × Json) :=
  match x with
  | some n => if n = 0 then p else dictSet p k (.num n)
  | none => p

/-- One `if options.<field>: params[k] = options.<field>` step of `query`
for a string-valued option: skipped when the option is `None` or empty. -/
def strOptStage (p : List (String × Json)) (k : String) (x : Option String) :
    List (String × Json) :=
  match x with
  | some s => if s.isEmpty then p else dictSet p k (.str s)
  | none => p

/-- Params built by `query` (`client.py:179-198`): the `select` join, the
`where` loop, then the truthiness-guarded `order`, `limit`, `offset`. -/
def queryParams (options : Option QueryOptions) : List (String × Json) :=
  match options with
  | none => []
  | some o =>
    let p : List (String × Json) := []
    let p := if o.select.isEmpty then p else dictSet p "select" (.str (commaJoin o.select))
    let p :=
      if o.where_.isEmpty then p
      else o.where_.foldl (fun acc kv => dictSet acc kv.1 (queryWhereValue kv.2)) p
    let p := strOptStage p "order" o.order
    let p := intOptStage p "limit" o.limit
    intOptStage p "offset" o.offset

/-- Params built by `get` (`client.py:219-221`). -/
def getParams (select : Option (List String)) : List (String × Json) :=
  match select with
  | some xs => if xs.isEmpty then [] else dictSet [] "select" (.str (commaJoin xs))
  | none => []

/-- Params built by `insert` (`client.py:242-244`). -/
def insertParams (options : Option InsertOptions) : List (String × Json) :=
  match options with
  | some o => if o.returning.isEmpty then [] else dictSet [] "returning" (.str (commaJoin o.returning))
  | none => []

/-- The `returning` step shared by `update`/`update_one`/`delete`/`delete_one`
(`if options and options.returning`). -/
def returningStep (p : List (String × Json)) (options : Option UpdateOptions) : List (String × Json) :=
  match options with
  | some o => if o.returning.isEmpty then p else dictSet p "returning" (.str (commaJoin o.returning))
  | none => p

/-- Params built by `update` (`client.py:267-277`): the where-conditions
loop, then the `returning` option. -/
def updateParams (whereConditions : List (String × Json)) (options : Option UpdateOptions) :
    List (String × Json) :=
  returningStep
    (whereConditions.foldl (fun acc kv => dictSet acc kv.1 (updateWhereValue kv.2)) [])
    options

/-- Params built by `delete` (`client.py:323-333`). -/
def deleteParams (whereConditions : List (String × Json)) (options : Option UpdateOptions) :
    List (String × Json) :=
  returningStep
    (whereConditions.foldl (fun acc kv => dictSet acc kv.1 (deleteWhereValue kv.2)) [])
    options

/-- A public operation of `MetaBaseClient` with its arguments.  Record ids
(`Union[str, int]`) are modelled by the string they interpolate into the
f-string path. -/
inductive Operation where
  | health
  | ping
  | query (table : String) (options : Option QueryOptions)
  | get (table : String) (id : String) (select : Option (List String))
  | insert (table : String) (data : Json) (options : Option InsertOptions)
  | update (table : String) (data : Json) (options : Option UpdateOptions)
      (whereConditions : List (String × Json))
  | update_one (table : String) (id : String) (data : Json) (options : Option UpdateOptions)
  | delete (table : String) (options : Option UpdateOptions)
      (whereConditions : List (String × Json))
  | delete_one (table : String) (id : String) (options : Option UpdateOptions)
  | list_tables
  | get_table_schema (table : String)

/-- The `(method, endpoint, data, params)` each public method passes to
`_request` (`client.py:144-380`). -/
def Operation.request : Operation → String × String × Option Json × List (String × Json)
  | .health => ("GET", "/rest/health", none, [])
  | .ping => ("GET", "/ping", none, [])
  | .query t o => ("GET", "/rest/v1/" ++ t, none, queryParams o)
  | .get t i s => ("GET", "/rest/v1/" ++ t ++ "/" ++ i, none, getParams s)
  | .insert t d o => ("POST", "/rest/v1/" ++ t, some d, insertParams o)
  | .update t d o w => ("PATCH", "/rest/v1/" ++ t, some d, updateParams w o)
  | .update_one t i d o => ("PATCH", "/rest/v1/" ++ t ++ "/" ++ i, some d, returningStep [] o)
  | .delete t o w => ("DELETE", "/rest/v1/" ++ t, none, deleteParams w o)
  | .delete_one t i o => ("DELETE", "/rest/v1/" ++ t ++ "/" ++ i, none, returningStep [] o)
  | .list_tables => ("GET", "/rest/v1", none, [])
  | .get_table_schema t => ("GET", "/rest/v1/" ++ t ++ "/schema", none, [])

/-- Outcome of the one `session.request` call: a response whose body either
decoded (`Sum.inr`) or made `response.json()` raise with message `msg`
(`Sum.inl msg`), or a raised `RequestException` with `str(e) = msg`. -/
inductive HttpResult where
  | response (status : Nat) (reason : String) (body : Sum String Json)
  | exn (msg : String)

/-- `_handle_error` (`client.py:49-74`).  `Except.error ()` is an uncaught
`AttributeError`: the `except` clause catches only `json.JSONDecodeError`
and `KeyError`, so calling `.get` on a non-dict decoded body (or on a
non-dict `error` member, including `None`) escapes. -/
def handle_error (status : Nat) (reason : String) (body : Sum String Json)
    (nowStrf nowIso : String) : Except Unit APIError :=
  match body with
  | .inl _ =>
    .ok (APIError.make (some (.str ("http_" ++ toString status))) (some (.str reason))
          none (some (.str nowStrf)) nowIso)
  | .inr j =>
    match j with
    | .obj kvs =>
      match dictLookup kvs "error" with
      | none =>
        .ok (APIError.make
              (pyGetD [] "code" (.str ("http_" ++ toString status)))
              (pyGetD [] "message" (.str reason))
              (pyGet [] "details") (pyGet [] "timestamp") nowIso)
      | some (.obj e) =>
        .ok (APIError.make
              (pyGetD e "code" (.str ("http_" ++ toString status)))
              (pyGetD e "message" (.str reason))
              (pyGet e "details") (pyGet e "timestamp") nowIso)
      | some _ => .error ()
    | _ => .error ()

/-- The request as handed to `session.request` (`client.py:107-113`),
together with the session headers it travels with. -/
structure SentRequest where
  method : String
  url : String
  headers : List (String × String)
  body : Option Json
  params : List (String × Json)

/-- A debug `print` recorded as an event (`client.py:99-104,115-116`). -/
inductive TraceEvent where
  | requestLine (method url : String)
  | dataDump (d : Json)
  | paramsDump (p : List (String × Json))
  | statusLine (status : Nat)

/-- What `_request` returns: the envelope, or an exception escaping it. -/
inductive Outcome where
  | envelope (r : APIResponse)
  | raised

/-- Everything observable about one `_request` call. -/
structure RunResult where
  sent : SentRequest
  trace : List TraceEvent
  outcome : Outcome

/-- The outcome classification of `_request` (`client.py:106-142`): the body
of the `try` after the transport call, plus the `except RequestException`
handler.  It depends only on the transport result and the clock reads. -/
def classifyOutcome (t : HttpResult) (nowStrf nowIso : String) : Outcome :=
  match t with
  | .exn m =>
    .envelope (APIResponse.ofError
      (APIError.make (some (.str "network_error")) (some (.str m)) none
        (some (.str nowStrf)) nowIso))
  | .response status reason body =>
    if 400 ≤ status then
      match handle_error status reason body nowStrf nowIso with
      | .ok e => .envelope (APIResponse.ofError e)
      | .error _ => .raised
    else
      match body with
      | .inl m =>
        .envelope (APIResponse.ofError
          (APIError.make (some (.str "network_error")) (some (.str m)) none
            (some (.str nowStrf)) nowIso))
      | .inr j =>
        match j with
        | .obj kvs =>
          .envelope ⟨pyGet kvs "data", pyGet kvs "count", pyGet kvs "limit",
                     pyGet kvs "offset", pyGet kvs "has_next", none⟩
        | .null => .envelope ⟨none, none, none, none, none, none⟩
        | v => .envelope ⟨some v, none, none, none, none, none⟩

/-- `MetaBaseClient._request` (`client.py:76-142`) invoked through a public
method `op`, with the transport outcome `t` supplied as data and the two
clock reads (`time.strftime` / `datetime.utcnow().isoformat()`) as
`nowStrf` / `nowIso`. -/
def run (cfg : MetaBaseConfig) (op : Operation) (t : HttpResult)
    (nowStrf nowIso : String) : RunResult :=
  let req := op.request
  let method := req.1
  let endpoint := req.2.1
  let data := req.2.2.1
  let params := req.2.2.2
  let url := requestUrl cfg.url endpoint
  let preTrace :=
    if cfg.debug then
      [TraceEvent.requestLine method.toUpper url] ++
      (match data with
       | some d => if pyTruthy d then [TraceEvent.dataDump d] else []
       | none => []) ++
      (if params.isEmpty then [] else [TraceEvent.paramsDump params])
    else []
  let trace :=
    preTrace ++
    (match t with
     | .response status _ _ => if cfg.debug then [TraceEvent.statusLine status] else []
     | .exn _ => [])
  ⟨⟨method, url, sessionHeaders cfg, data, params⟩, trace, classifyOutcome t nowStrf nowIso⟩

/-! ### Auxiliary definitions used by the theorem statements -/

/-- Error-status bodies the pipeline can recover into an envelope: an
unparsable body, or a mapping whose `error` member is absent or itself a
mapping.  Anything else makes `_handle_error` call `.get` on a non-dict
and raise `AttributeError`. -/
def recoverableErrorBody : Sum String Json → Bool
  | .inl _ => true
  | .inr (.obj kvs) =>
    match dictLookup kvs "error" with
    | none => true
    | some (.obj _) => true
    | some _ => false
  | .inr _ => false

/-- A character `urlsplit` does not delete (`_UNSAFE_URL_BYTES_TO_REMOVE`). -/
def urlClean (c : Char) : Bool :=
  !(c = Char.ofNat 9 || c = Char.ofNat 13 || c = Char.ofNat 10)

/-- A path character that triggers none of the split points of
`urlsplit`/`_splitparams` (`#`, `?`, `;`). -/
def plainPathChar (c : Char) : Bool :=
  !(c = '#' || c = '?' || c = ';')

/-- The absolute URL the client builds for a user-supplied base URL and an
endpoint: the `MetaBaseConfig` constructor strips trailing slashes, then
`_request` joins (`types.py:38` + `client.py:97`). -/
def builtUrl (userUrl endpoint : String) : String :=
  requestUrl (rstripSlashes userUrl) endpoint

/-- Whether a `_request` outcome is an error envelope: no exception escaped,
`error` is populated, and `data` and all pagination fields are absent. -/
def Outcome.isErrorEnvelope : Outcome → Bool
  | .envelope r =>
    r.error.isSome && r.data.isNone && r.count.isNone && r.limit.isNone &&
    r.offset.isNone && r.has_next.isNone
  | .raised => false

/-- A concrete configuration used by witnesses and counterexamples. -/
def cfgSample : MetaBaseConfig :=
  MetaBaseConfig.make "http://localhost:8080" "test-key" 30000 [] false

/-- The `QueryOptions` of the §8 query scenario, as the Python constructor
leaves them: `select=["id","name"]`, `where={"age": {"gte": 18}}`,
`limit=10`, everything else defaulted. -/
def queryScenarioOptions : QueryOptions :=
  ⟨["id", "name"], [("age", Json.obj [("gte", Json.num 18)])], none, some 10, none, [], []⟩

/-! ### Theorems -/

/-- C6: `query("users", options)` with `select=["id","name"]`,
`where={"age": {"gte": 18}}`, `limit=10` produces a `GET` request on
`/rest/v1/users` under the configured base URL, with query parameters
`select=id,name`, `age` bound to the JSON serialization of the `where`
value, and `limit=10`, and no body.  The final conjunct pins the JSON
serialization down to the concrete text `json.dumps` emits. -/
theorem query_users_request_scenario :
    (run cfgSample (.query "users" (some queryScenarioOptions))
        (.response 200 "OK" (.inr (Json.obj []))) "T" "I").sent.method = "GET" ∧
    (run cfgSample (.query "users" (some queryScenarioOptions))
        (.response 200 "OK" (.inr (Json.obj []))) "T" "I").sent.url
      = "http://localhost:8080/rest/v1/users" ∧
    (run cfgSample (.query "users" (some queryScenarioOptions))
        (.response 200 "OK" (.inr (Json.obj []))) "T" "I").sent.params
      = [("select", Json.str "id,name"),
         ("age", Json.str (jsonDumps (Json.obj [("gte", Json.num 18)]))),
         ("limit", Json.num 10)] ∧
    (run cfgSample (.query "users" (some queryScenarioOptions))
        (.response 200 "OK" (.inr (Json.obj []))) "T" "I").sent.body = none ∧
    jsonDumps (Json.obj [("gte", Json.num 18)]) = "\x7b\"gte\": 18\x7d" :=
  ⟨rfl, rfl, rfl, rfl, rfl⟩

/-- C9: the outgoing request (method, URL, headers, body, params) and the
returned envelope are identical whatever the `debug` flag is; `debug` only
changes the emitted trace. -/
theorem debug_does_not_alter_request (cfg : MetaBaseConfig) (op : Operation)
    (t : HttpResult) (nowStrf nowIso : String) (b : Bool) :
    (run { cfg with debug := b } op t nowStrf nowIso).sent
      = (run cfg op t nowStrf nowIso).sent ∧
    (run { cfg with debug := b } op t nowStrf nowIso).outcome
      = (run cfg op t nowStrf nowIso).outcome :=
  ⟨rfl, rfl⟩

/-- C5: a raised `RequestException` is turned into an envelope whose error
is exactly `network_error` with the exception text as message and the
`time.strftime` clock read as timestamp, and no data or pagination fields
(the hypothesis records that a `strftime`-formatted timestamp is never the
empty string, which the `APIError` constructor would replace). -/
theorem network_error_envelope (cfg : MetaBaseConfig) (op : Operation)
    (m nowStrf nowIso : String) (h : nowStrf ≠ "") :
    (run cfg op (.exn m) nowStrf nowIso).outcome
      = .envelope ⟨none, none, none, none, none,
          some ⟨some (.str "network_error"), some (.str m), none, .str nowStrf⟩⟩ := by
  have he : nowStrf.isEmpty = false := by
    rcases hb : nowStrf.isEmpty with _ | _
    · rfl
    · exact absurd ((String.isEmpty_iff nowStrf).1 hb) h
  show classifyOutcome (.exn m) nowStrf nowIso = _
  simp [classifyOutcome, APIResponse.ofError, APIError.make, pyTruthy, he]

/-- Witness for `network_error_envelope` at a concrete clock and message. -/
theorem network_error_envelope_witness :
    ("2026-01-01T00:00:00Z" : String) ≠ "" ∧
    (run cfgSample .ping (.exn "Connection refused") "2026-01-01T00:00:00Z" "I").outcome
      = .envelope ⟨none, none, none, none, none,
          some ⟨some (.str "network_error"), some (.str "Connection refused"), none,
                .str "2026-01-01T00:00:00Z"⟩⟩ :=
  ⟨by decide,
   network_error_envelope cfgSample .ping "Connection refused" "2026-01-01T00:00:00Z" "I"
     (by decide)⟩

/-- C1 (amended): for every success-status response, a decoded mapping body
is always unwrapped via `.get` — `data` becomes the mapping's `data` member
(absent when the key is missing or null, even if other keys exist), and the
four pagination fields are read from the same mapping when present; only a
non-mapping decoded body is wrapped whole as `data` with no pagination
fields (a bare `null` body yields an absent `data`). -/
theorem success_envelope_unwrap (cfg : MetaBaseConfig) (op : Operation) (status : Nat)
    (reason : String) (j : Json) (nowStrf nowIso : String) (h : status < 400) :
    (run cfg op (.response status reason (.inr j)) nowStrf nowIso).outcome
      = .envelope
          (match j with
           | .obj kvs =>
             ⟨pyGet kvs "data", pyGet kvs "count", pyGet kvs "limit",
              pyGet kvs "offset", pyGet kvs "has_next", none⟩
           | .null => ⟨none, none, none, none, none, none⟩
           | v => ⟨some v, none, none, none, none, none⟩) := by
  have h4 : ¬ 400 ≤ status := by omega
  show classifyOutcome (.response status reason (.inr j)) nowStrf nowIso = _
  cases j <;> simp [classifyOutcome, h4]

/-- Witness for `success_envelope_unwrap`: a 200 response with body
`{"data": 7, "count": 2}` unwraps to `data = 7`, `count = 2`. -/
theorem success_envelope_unwrap_witness :
    200 < 400 ∧
    (run cfgSample .ping
        (.response 200 "OK"
          (.inr (Json.obj [("data", Json.num 7), ("count", Json.num 2)])))
        "T" "I").outcome
      = .envelope ⟨some (Json.num 7), some (Json.num 2), none, none, none, none⟩ :=
  ⟨by decide,
   success_envelope_unwrap cfgSample .ping 200 "OK"
     (Json.obj [("data", Json.num 7), ("count", Json.num 2)]) "T" "I" (by decide)⟩

/-- Counterexample to C1 as stated: a 200 response whose body is the mapping
`{"count": 5}` — a mapping *without* a `data` key — does **not** wrap the
whole body: the envelope's `data` is absent (not the mapping), and the
pagination field `count` **is** read from the mapping. -/
theorem mapping_without_data_counterexample :
    (run cfgSample .ping (.response 200 "OK" (.inr (Json.obj [("count", Json.num 5)])))
        "T" "I").outcome
      = .envelope ⟨none, some (Json.num 5), none, none, none, none⟩ ∧
    (none : Option Json) ≠ some (Json.obj [("count", Json.num 5)]) ∧
    (some (Json.num 5) : Option Json) ≠ (none : Option Json) :=
  ⟨rfl, by simp, by simp⟩

/-- C2 (amended): `data` and `error` are never both populated in an envelope
returned by any public operation — error envelopes carry no data and
success envelopes carry no error — but they are not jointly exhaustive:
both can be absent (a success body that is a mapping with no truthy `data`
member), and the `APIResponse` constructor itself does not enforce the
exclusion. -/
theorem envelope_never_both_populated (cfg : MetaBaseConfig) (op : Operation)
    (t : HttpResult) (nowStrf nowIso : String) (r : APIResponse)
    (h : (run cfg op t nowStrf nowIso).outcome = .envelope r) :
    ¬ (r.data.isSome = true ∧ r.error.isSome = true) := by
  replace h : classifyOutcome t nowStrf nowIso = .envelope r := h
  rintro ⟨hd, he⟩
  rcases t with ⟨status, reason, body⟩ | m
  · by_cases h4 : 400 ≤ status
    · rcases body with msg | j
      · simp only [classifyOutcome, if_pos h4, handle_error, Outcome.envelope.injEq] at h
        rw [← h] at hd
        simp [APIResponse.ofError] at hd
      · rcases j with _ | b | n | s | xs | kvs
        · simp [classifyOutcome, if_pos h4, handle_error] at h
        · simp [classifyOutcome, if_pos h4, handle_error] at h
        · simp [classifyOutcome, if_pos h4, handle_error] at h
        · simp [classifyOutcome, if_pos h4, handle_error] at h
        · simp [classifyOutcome, if_pos h4, handle_error] at h
        · rcases hl : dictLookup kvs "error" with _ | v
          · simp only [classifyOutcome, if_pos h4, handle_error, hl,
              Outcome.envelope.injEq] at h
            rw [← h] at hd
            simp [APIResponse.ofError] at hd
          · rcases v with _ | b | n | s | xs | e
            · simp [classifyOutcome, if_pos h4, handle_error, hl] at h
            · simp [classifyOutcome, if_pos h4, handle_error, hl] at h
            · simp [classifyOutcome, if_pos h4, handle_error, hl] at h
            · simp [classifyOutcome, if_pos h4, handle_error, hl] at h
            · simp [classifyOutcome, if_pos h4, handle_error, hl] at h
            · simp only [classifyOutcome, if_pos h4, handle_error, hl,
                Outcome.envelope.injEq] at h
              rw [← h] at hd
              simp [APIResponse.ofError] at hd
    · rcases body with msg | j
      · simp only [classifyOutcome, if_neg h4, Outcome.envelope.injEq] at h
        rw [← h] at hd
        simp [APIResponse.ofError] at hd
      · rcases j with _ | b | n | s | xs | kvs <;>
          simp only [classifyOutcome, if_neg h4, Outcome.envelope.injEq] at h <;>
          rw [← h] at he <;> simp at he
  · simp only [classifyOutcome, Outcome.envelope.injEq] at h
    rw [← h] at hd
    simp [APIResponse.ofError] at hd

/-- Witness for `envelope_never_both_populated` at a concrete transport
failure: the network-error envelope populates `error` but not `data`. -/
theorem envelope_never_both_populated_witness :
    (run cfgSample .ping (.exn "boom") "T" "I").outcome
      = .envelope ⟨none, none, none, none, none,
          some ⟨some (.str "network_error"), some (.str "boom"), none, .str "T"⟩⟩ ∧
    ¬ ((none : Option Json).isSome = true ∧
       (some (⟨some (.str "network_error"), some (.str "boom"), none,
              .str "T"⟩ : APIError)).isSome = true) :=
  ⟨rfl,
   envelope_never_both_populated cfgSample .ping (.exn "boom") "T" "I"
     ⟨none, none, none, none, none,
      some ⟨some (.str "network_error"), some (.str "boom"), none, .str "T"⟩⟩ rfl⟩

/-- Counterexample to C2 as stated: a 200 response whose body is the empty
mapping yields an envelope in which `data` and `error` are **both** absent,
so "exactly one is populated" fails. -/
theorem envelope_both_absent_counterexample :
    (run cfgSample .ping (.response 200 "OK" (.inr (Json.obj []))) "T" "I").outcome
      = .envelope ⟨none, none, none, none, none, none⟩ ∧
    (⟨none, none, none, none, none, none⟩ : APIResponse).data = none ∧
    (⟨none, none, none, none, none, none⟩ : APIResponse).error = none :=
  ⟨rfl, rfl, rfl⟩

/-- C3 (amended): the pipeline converts to an error envelope — and does not
raise — every transport-level failure and every status ≥ 400 response whose
body is unparsable JSON or a JSON mapping whose `error` member is absent or
itself a mapping.  (A status ≥ 400 body decoding to a non-mapping value, or
to a mapping whose `error` member is a non-mapping truthy-or-null value,
instead escapes as an uncaught `AttributeError`.) -/
theorem pipeline_recovers_expected_failures (cfg : MetaBaseConfig) (op : Operation)
    (t : HttpResult) (nowStrf nowIso : String)
    (h : match t with
         | .exn _ => True
         | .response status _ body => 400 ≤ status ∧ recoverableErrorBody body = true) :
    ((run cfg op t nowStrf nowIso).outcome).isErrorEnvelope = true := by
  show (classifyOutcome t nowStrf nowIso).isErrorEnvelope = true
  rcases t with ⟨status, reason, body⟩ | m
  · obtain ⟨h4, hb⟩ := h
    rcases body with msg | j
    · simp [classifyOutcome, if_pos h4, handle_error, Outcome.isErrorEnvelope,
        APIResponse.ofError]
    · rcases j with _ | b | n | s | xs | kvs
      · simp [recoverableErrorBody] at hb
      · simp [recoverableErrorBody] at hb
      · simp [recoverableErrorBody] at hb
      · simp [recoverableErrorBody] at hb
      · simp [recoverableErrorBody] at hb
      · rcases hl : dictLookup kvs "error" with _ | v
        · simp [classifyOutcome, if_pos h4, handle_error, hl, Outcome.isErrorEnvelope,
            APIResponse.ofError]
        · rcases v with _ | b | n | s | xs | e
          · simp [recoverableErrorBody, hl] at hb
          · simp [recoverableErrorBody, hl] at hb
          · simp [recoverableErrorBody, hl] at hb
          · simp [recoverableErrorBody, hl] at hb
          · simp [recoverableErrorBody, hl] at hb
          · simp [classifyOutcome, if_pos h4, handle_error, hl, Outcome.isErrorEnvelope,
              APIResponse.ofError]
  · simp [classifyOutcome, Outcome.isErrorEnvelope, APIResponse.ofError]

/-- Witness for `pipeline_recovers_expected_failures`: a 404 with an
unparsable body is recovered into an error envelope. -/
theorem pipeline_recovers_expected_failures_witness :
    (400 ≤ 404 ∧ recoverableErrorBody (.inl "Expecting value") = true) ∧
    ((run cfgSample .ping (.response 404 "Not Found" (.inl "Expecting value"))
        "T" "I").outcome).isErrorEnvelope = true :=
  ⟨⟨by decide, rfl⟩,
   pipeline_recovers_expected_failures cfgSample .ping
     (.response 404 "Not Found" (.inl "Expecting value")) "T" "I" ⟨by decide, rfl⟩⟩

/-- Counterexample to C3 as stated: a 400 response whose body decodes to the
JSON array `[]` makes `_handle_error` call `.get` on a list — an
`AttributeError` that the pipeline does not catch, so it raises instead of
returning an envelope. -/
theorem error_status_array_body_raises :
    (run cfgSample .ping (.response 400 "Bad Request" (.inr (Json.arr []))) "T" "I").outcome
      = Outcome.raised :=
  rfl

/-- C4 (amended): for a status ≥ 400 response whose body parses to a mapping
with a mapping `error` member, the error fields come from that member via
`dict.get` — `code` falling back to `http_<status>`, `message` to the
reason phrase, `details` to absent — while `timestamp` is kept only when
present *and truthy*: an absent, null or falsy timestamp (e.g. the empty
string) falls back to the constructor clock `nowIso`.  If the body is not
parsable JSON at all, the result is exactly
`{code: http_<status>, message: <reason>, timestamp: now}`. -/
theorem error_normalization_fields (cfg : MetaBaseConfig) (op : Operation) (status : Nat)
    (reason nowStrf nowIso : String) (h4 : 400 ≤ status) :
    (∀ kvs e, dictLookup kvs "error" = some (.obj e) →
      (run cfg op (.response status reason (.inr (.obj kvs))) nowStrf nowIso).outcome
        = .envelope (APIResponse.ofError
            ⟨pyGetD e "code" (.str ("http_" ++ toString status)),
             pyGetD e "message" (.str reason),
             pyGet e "details",
             match pyGet e "timestamp" with
             | some v => if pyTruthy v then v else .str nowIso
             | none => .str nowIso⟩)) ∧
    (nowStrf ≠ "" → ∀ msg,
      (run cfg op (.response status reason (.inl msg)) nowStrf nowIso).outcome
        = .envelope (APIResponse.ofError
            ⟨some (.str ("http_" ++ toString status)), some (.str reason), none,
             .str nowStrf⟩)) := by
  constructor
  · intro kvs e he
    show classifyOutcome (.response status reason (.inr (.obj kvs))) nowStrf nowIso = _
    simp [classifyOutcome, if_pos h4, handle_error, he, APIError.make]
  · intro hn msg
    have hne : nowStrf.isEmpty = false := by
      rcases hb : nowStrf.isEmpty with _ | _
      · rfl
      · exact absurd ((String.isEmpty_iff nowStrf).1 hb) hn
    show classifyOutcome (.response status reason (.inl msg)) nowStrf nowIso = _
    simp [classifyOutcome, if_pos h4, handle_error, APIError.make, pyTruthy, hne]

/-- Witness for `error_normalization_fields`: the §8 scenario — status 404
with body `{"error":{"message":"not found"}}` yields
`{code:"http_404", message:"not found"}` (details absent, timestamp from
the constructor clock), and an unparsable 404 body yields exactly the
`http_404`/reason/`nowStrf` fallback. -/
theorem error_normalization_fields_witness :
    400 ≤ 404 ∧
    (run cfgSample .ping
        (.response 404 "Not Found"
          (.inr (Json.obj [("error", Json.obj [("message", Json.str "not found")])])))
        "T" "I").outcome
      = .envelope (APIResponse.ofError
          ⟨some (Json.str "http_404"), some (Json.str "not found"), none, Json.str "I"⟩) ∧
    (run cfgSample .ping (.response 404 "Not Found" (.inl "Expecting value"))
        "T" "I").outcome
      = .envelope (APIResponse.ofError
          ⟨some (Json.str "http_404"), some (Json.str "Not Found"), none, Json.str "T"⟩) :=
  ⟨by decide,
   (error_normalization_fields cfgSample .ping 404 "Not Found" "T" "I" (by decide)).1
     [("error", Json.obj [("message", Json.str "not found")])]
     [("message", Json.str "not found")] rfl,
   (error_normalization_fields cfgSample .ping 404 "Not Found" "T" "I" (by decide)).2
     (by decide) "Expecting value"⟩

/-- Counterexample to C4 as stated: status 404 with body
`{"error":{"message":"not found","timestamp":""}}` — the timestamp **is
present** in the error mapping, yet the returned `ErrorInfo` carries the
constructor clock `"ISO0"` instead of the supplied `""`, because the
`APIError` constructor tests truthiness (`timestamp or now`), not
presence. -/
theorem falsy_timestamp_counterexample :
    (run cfgSample .ping
        (.response 404 "Not Found"
          (.inr (Json.obj [("error",
             Json.obj [("message", Json.str "not found"), ("timestamp", Json.str "")])])))
        "T0" "ISO0").outcome
      = .envelope (APIResponse.ofError
          ⟨some (Json.str "http_404"), some (Json.str "not found"), none,
           Json.str "ISO0"⟩) ∧
    Json.str "ISO0" ≠ Json.str "" :=
  ⟨rfl, by simp⟩

/-- C7: the where-condition serialization rule — mappings and sequences go
to their JSON text, scalars to their Python string form — and the fact that
`query`, `update` and `delete` apply the identical rule: their three
(separately transcribed) serializers agree on every value, the three
where-loops agree on every condition dict, and `update`/`delete` build
identical params from identical inputs. -/
theorem where_serialization_uniform :
    (∀ v, queryWhereValue v = updateWhereValue v ∧ deleteWhereValue v = updateWhereValue v) ∧
    (∀ kvs, updateWhereValue (Json.obj kvs) = Json.str (jsonDumps (Json.obj kvs))) ∧
    (∀ xs, updateWhereValue (Json.arr xs) = Json.str (jsonDumps (Json.arr xs))) ∧
    (∀ s, updateWhereValue (Json.str s) = Json.str s) ∧
    (∀ n, updateWhereValue (Json.num n) = Json.str (toString n)) ∧
    (updateWhereValue (Json.bool true) = Json.str "True" ∧
     updateWhereValue (Json.bool false) = Json.str "False" ∧
     updateWhereValue Json.null = Json.str "None") ∧
    (∀ (w p : List (String × Json)),
      w.foldl (fun acc kv => dictSet acc kv.1 (queryWhereValue kv.2)) p
        = w.foldl (fun acc kv => dictSet acc kv.1 (updateWhereValue kv.2)) p ∧
      w.foldl (fun acc kv => dictSet acc kv.1 (deleteWhereValue kv.2)) p
        = w.foldl (fun acc kv => dictSet acc kv.1 (updateWhereValue kv.2)) p) ∧
    (∀ w o, updateParams w o = deleteParams w o) := by
  have h1 : ∀ v, queryWhereValue v = updateWhereValue v := by
    intro v
    rcases v with _ | b | n | s | xs | kvs
    · rfl
    · cases b <;> rfl
    · rfl
    · rfl
    · rfl
    · rfl
  have h2 : ∀ v, deleteWhereValue v = updateWhereValue v := by
    intro v
    rcases v with _ | b | n | s | xs | kvs
    · rfl
    · cases b <;> rfl
    · rfl
    · rfl
    · rfl
    · rfl
  refine ⟨fun v => ⟨h1 v, h2 v⟩, fun kvs => rfl, fun xs => rfl, fun s => rfl,
    fun n => rfl, ⟨rfl, rfl, rfl⟩, ?_, ?_⟩
  · intro w p
    constructor <;> simp only [h1, h2]
  · intro w o
    simp only [updateParams, deleteParams, h2]

/-- Any element of `dictSet d k v` either carries the inserted key or was
already in `d`. -/
theorem mem_dictSet_key (d : List (String × Json)) (k : String) (v : Json)
    (q : String × Json) (hq : q ∈ dictSet d k v) : q.1 = k ∨ q ∈ d := by
  unfold dictSet at hq
  by_cases hc : d.any (fun p => p.1 = k) = true
  · rw [if_pos hc] at hq
    rcases List.mem_map.1 hq with ⟨p, hp, he⟩
    by_cases hpk : p.1 = k
    · rw [if_pos hpk] at he
      left
      rw [← he]
    · rw [if_neg hpk] at he
      right
      rwa [← he]
  · rw [if_neg hc] at hq
    rcases List.mem_append.1 hq with h | h
    · right; exact h
    · left
      have := List.mem_singleton.1 h
      rw [this]

/-- Any element of a where-conditions fold either was in the initial params
or carries one of the condition keys. -/
theorem mem_whereFold_key (f : Json → Json) (w p : List (String × Json))
    (q : String × Json)
    (hq : q ∈ w.foldl (fun acc kv => dictSet acc kv.1 (f kv.2)) p) :
    q ∈ p ∨ ∃ kv, kv ∈ w ∧ q.1 = kv.1 := by
  induction w generalizing p with
  | nil => exact Or.inl hq
  | cons kv rest ih =>
    rw [List.foldl_cons] at hq
    rcases ih (dictSet p kv.1 (f kv.2)) hq with h | ⟨kv', h1, h2⟩
    · rcases mem_dictSet_key p kv.1 (f kv.2) q h with hk | hp
      · exact Or.inr ⟨kv, List.mem_cons_self kv rest, hk⟩
      · exact Or.inl hp
    · exact Or.inr ⟨kv', List.mem_cons_of_mem kv h1, h2⟩

/-- Any element of an `intOptStage` either carries the stage key or was
already in the params. -/
theorem mem_intOptStage_key (p : List (String × Json)) (k : String) (x : Option Int)
    (q : String × Json) (hq : q ∈ intOptStage p k x) : q.1 = k ∨ q ∈ p := by
  rcases x with _ | n
  · exact Or.inr hq
  · by_cases h : n = 0
    · simp only [intOptStage, if_pos h] at hq
      exact Or.inr hq
    · simp only [intOptStage, if_neg h] at hq
      exact mem_dictSet_key p k (Json.num n) q hq

/-- Any element of a `strOptStage` either carries the stage key or was
already in the params. -/
theorem mem_strOptStage_key (p : List (String × Json)) (k : String) (x : Option String)
    (q : String × Json) (hq : q ∈ strOptStage p k x) : q.1 = k ∨ q ∈ p := by
  rcases x with _ | s
  · exact Or.inr hq
  · by_cases h : s.isEmpty
    · simp only [strOptStage, if_pos h] at hq
      exact Or.inr hq
    · simp only [strOptStage, if_neg h] at hq
      exact mem_dictSet_key p k (Json.str s) q hq

/-- Provenance of every key in `queryParams`: it is the `select` key (only
when `select` is truthy), a `where` condition key, or one of
`order`/`limit`/`offset`. -/
theorem queryParams_key_mem (o : QueryOptions) (q : String × Json)
    (hq : q ∈ queryParams (some o)) :
    (q.1 = "select" ∧ o.select ≠ []) ∨ (∃ kv, kv ∈ o.where_ ∧ q.1 = kv.1) ∨
    q.1 = "order" ∨ q.1 = "limit" ∨ q.1 = "offset" := by
  dsimp only [queryParams] at hq
  rcases mem_intOptStage_key _ "offset" o.offset q hq with hk | hq
  · exact Or.inr (Or.inr (Or.inr (Or.inr hk)))
  rcases mem_intOptStage_key _ "limit" o.limit q hq with hk | hq
  · exact Or.inr (Or.inr (Or.inr (Or.inl hk)))
  rcases mem_strOptStage_key _ "order" o.order q hq with hk | hq
  · exact Or.inr (Or.inr (Or.inl hk))
  by_cases hw0 : o.where_.isEmpty = true
  · rw [if_pos hw0] at hq
    by_cases hs : o.select.isEmpty = true
    · rw [if_pos hs] at hq
      exact absurd hq (List.not_mem_nil q)
    · rw [if_neg hs] at hq
      rcases mem_dictSet_key _ _ _ _ hq with hk | hq
      · refine Or.inl ⟨hk, fun hnil => hs ?_⟩
        rw [hnil]
        rfl
      · exact absurd hq (List.not_mem_nil q)
  · rw [if_neg hw0] at hq
    rcases mem_whereFold_key queryWhereValue o.where_ _ q hq with hq | ⟨kv, h1, h2⟩
    · by_cases hs : o.select.isEmpty = true
      · rw [if_pos hs] at hq
        exact absurd hq (List.not_mem_nil q)
      · rw [if_neg hs] at hq
        rcases mem_dictSet_key _ _ _ _ hq with hk | hq
        · refine Or.inl ⟨hk, fun hnil => hs ?_⟩
          rw [hnil]
          rfl
        · exact absurd hq (List.not_mem_nil q)
    · exact Or.inr (Or.inl ⟨kv, h1, h2⟩)

/-- C10: `query` tests truthiness of option fields, not presence — a limit
or offset equal to `0` is omitted from the query string exactly as if the
field were unset, and with an empty `select` sequence no `select` parameter
is emitted (unless a where-condition reuses that key). -/
theorem falsy_query_options_omitted (o : QueryOptions) :
    queryParams (some { o with limit := some 0 })
      = queryParams (some { o with limit := none }) ∧
    queryParams (some { o with offset := some 0 })
      = queryParams (some { o with offset := none }) ∧
    (o.select = [] → (∀ kv, kv ∈ o.where_ → kv.1 ≠ "select") →
      ∀ q, q ∈ queryParams (some o) → q.1 ≠ "select") := by
  refine ⟨?_, ?_, ?_⟩
  · simp [queryParams, intOptStage]
  · simp [queryParams, intOptStage]
  · intro hsel hw q hq hqsel
    rcases queryParams_key_mem o q hq with ⟨_, hne⟩ | ⟨kv, h1, h2⟩ | hk | hk | hk
    · exact hne hsel
    · exact hw kv h1 (by rw [← h2, hqsel])
    · rw [hqsel] at hk
      exact absurd hk (by decide)
    · rw [hqsel] at hk
      exact absurd hk (by decide)
    · rw [hqsel] at hk
      exact absurd hk (by decide)

/-- Witness for `falsy_query_options_omitted`: with
`select=[]`, `where={"age": 1}`, a zero limit is dropped (the params equal
those with no limit at all), and the single emitted parameter key `age` is
not `select`. -/
theorem falsy_query_options_omitted_witness :
    queryParams (some (⟨[], [("age", Json.num 1)], none, some 0, none, [], []⟩ : QueryOptions))
      = queryParams (some (⟨[], [("age", Json.num 1)], none, none, none, [], []⟩ : QueryOptions)) ∧
    (("age", Json.str "1") : String × Json).1 ≠ "select" :=
  ⟨(falsy_query_options_omitted
      (⟨[], [("age", Json.num 1)], none, none, none, [], []⟩ : QueryOptions)).1,
   (falsy_query_options_omitted
      (⟨[], [("age", Json.num 1)], none, none, none, [], []⟩ : QueryOptions)).2.2
     rfl
     (by intro kv hkv; rcases List.mem_singleton.1 hkv with rfl; decide)
     ("age", Json.str "1")
     (List.mem_cons_self _ _)⟩

/-- `takeWhile`/`dropWhile` split exactly at the first failing element. -/
theorem takeWhile_dropWhile_append_cons (q : Char → Bool) (a : List Char) (x : Char)
    (t : List Char) (ha : ∀ c ∈ a, q c = true) (hx : q x = false) :
    (a ++ x :: t).takeWhile q = a ∧ (a ++ x :: t).dropWhile q = x :: t := by
  induction a with
  | nil => simp [List.takeWhile_cons, List.dropWhile_cons, hx]
  | cons c cs ih =>
    have hc : q c = true := ha c (List.mem_cons_self c cs)
    have ih' := ih (fun d hd => ha d (List.mem_cons_of_mem c hd))
    simp [List.takeWhile_cons, List.dropWhile_cons, hc, ih'.1, ih'.2]

/-- `takeWhile`/`dropWhile` on a list every element of which satisfies the
predicate. -/
theorem takeWhile_dropWhile_of_forall (q : Char → Bool) (l : List Char)
    (h : ∀ c ∈ l, q c = true) :
    l.takeWhile q = l ∧ l.dropWhile q = [] := by
  induction l with
  | nil => simp
  | cons c cs ih =>
    have hc : q c = true := h c (List.mem_cons_self c cs)
    have ih' := ih (fun d hd => h d (List.mem_cons_of_mem c hd))
    simp [List.takeWhile_cons, List.dropWhile_cons, hc, ih'.1, ih'.2]

/-- `contains` is false when the element is absent. -/
theorem contains_eq_false_of_not_mem (l : List Char) (x : Char) (h : x ∉ l) :
    l.contains x = false := by
  rcases hb : l.contains x with _ | _
  · rfl
  · exact absurd (List.elem_iff.1 hb) h

/-- A scheme character is not a colon. -/
theorem schemeChar_bne_colon (c : Char) (h : schemeChar c = true) : (c != ':') = true := by
  by_cases hc : c = ':'
  · subst hc
    exact absurd h (by decide)
  · simp [bne_iff_ne, hc]

/-- A scheme character survives `removeUnsafe`. -/
theorem schemeChar_clean (c : Char) (h : schemeChar c = true) : urlClean c = true := by
  by_cases h9 : c = Char.ofNat 9
  · subst h9; exact absurd h (by decide)
  by_cases h13 : c = Char.ofNat 13
  · subst h13; exact absurd h (by decide)
  by_cases h10 : c = Char.ofNat 10
  · subst h10; exact absurd h (by decide)
  simp [urlClean, h9, h13, h10]

/-- `str.split('/')` never returns the empty list. -/
theorem splitSlash_ne_nil (l : List Char) : splitSlash l ≠ [] := by
  induction l with
  | nil => simp [splitSlash]
  | cons c rest ih =>
    by_cases hc : c = '/'
    · simp [splitSlash, hc]
    · simp only [splitSlash, if_neg hc]
      rcases hs : splitSlash rest with _ | ⟨g, gs⟩
      · simp
      · simp

/-- Appending a slash appends one empty segment. -/
theorem splitSlash_append_slash (l : List Char) :
    splitSlash (l ++ ['/']) = splitSlash l ++ [[]] := by
  induction l with
  | nil => simp [splitSlash]
  | cons c rest ih =>
    by_cases hc : c = '/'
    · simp [splitSlash, hc, ih]
    · rcases hs : splitSlash rest with _ | ⟨g, gs⟩
      · exact absurd hs (splitSlash_ne_nil rest)
      · rw [List.cons_append]
        simp only [splitSlash, if_neg hc, ih, hs, List.cons_append]

/-- `'/'.join` undoes `split('/')`. -/
theorem joinSlash_splitSlash (l : List Char) : joinSlash (splitSlash l) = l := by
  induction l with
  | nil => simp [splitSlash, joinSlash]
  | cons c rest ih =>
    by_cases hc : c = '/'
    · subst hc
      simp only [splitSlash, if_pos rfl]
      rcases hs : splitSlash rest with _ | ⟨g, gs⟩
      · exact absurd hs (splitSlash_ne_nil rest)
      · rw [hs] at ih
        simp [joinSlash, ih]
    · simp only [splitSlash, if_neg hc]
      rcases hs : splitSlash rest with _ | ⟨g, gs⟩
      · exact absurd hs (splitSlash_ne_nil rest)
      · rw [hs] at ih
        rcases gs with _ | ⟨g2, gs2⟩
        · simp only [joinSlash] at ih ⊢
          rw [ih]
        · simp only [joinSlash] at ih ⊢
          rw [← ih]
          simp [List.cons_append]

/-- `'/'.join` distributes over append of nonempty segment lists. -/
theorem joinSlash_append (A B : List (List Char)) (hA : A ≠ []) (hB : B ≠ []) :
    joinSlash (A ++ B) = joinSlash A ++ '/' :: joinSlash B := by
  induction A with
  | nil => exact absurd rfl hA
  | cons a as ih =>
    rcases as with _ | ⟨a2, as2⟩
    · rcases B with _ | ⟨b, bs⟩
      · exact absurd rfl hB
      · simp [joinSlash]
    · have ih' : joinSlash (a2 :: (as2 ++ B)) = joinSlash (a2 :: as2) ++ '/' :: joinSlash B := by
        have := ih (by simp)
        rwa [List.cons_append] at this
      rw [List.cons_append, List.cons_append]
      show joinSlash (a :: a2 :: (as2 ++ B)) = _
      simp only [joinSlash, ih']
      simp

/-- The resolution loop is the identity when no segment is `.` or `..`. -/
theorem resolveSegments_no_dots (segs : List (List Char))
    (h : ∀ seg ∈ segs, seg ≠ ['.'] ∧ seg ≠ ['.', '.']) :
    resolveSegments segs = segs := by
  suffices haux : ∀ acc, segs.foldl
      (fun acc seg =>
        if seg = ['.', '.'] then acc.dropLast
        else if seg = ['.'] then acc
        else acc ++ [seg]) acc = acc ++ segs by
    simpa [resolveSegments] using haux []
  induction segs with
  | nil => intro acc; simp
  | cons s rest ih =>
    intro acc
    have hs := h s (List.mem_cons_self s rest)
    have ih' := ih (fun seg hseg => h seg (List.mem_cons_of_mem s hseg))
    simp only [List.foldl_cons, if_neg hs.2, if_neg hs.1, ih' (acc ++ [s])]
    simp

/-- Filtering out empty segments is the identity on all-nonempty lists. -/
theorem filter_ne_nil_eq_self (l : List (List Char)) (h : ∀ x ∈ l, x ≠ []) :
    l.filter (fun s => s ≠ []) = l := by
  induction l with
  | nil => rfl
  | cons x xs ih =>
    have hx : x ≠ [] := h x (List.mem_cons_self x xs)
    have hxs := ih (fun y hy => h y (List.mem_cons_of_mem x hy))
    simp only [List.filter_cons, hxs]
    simp [hx]

/-- Defining equation of `interiorFilter` with two exposed cons cells. -/
theorem interiorFilter_cons_cons (a b : List Char) (rest : List (List Char)) :
    interiorFilter (a :: b :: rest)
      = match (b :: rest).getLast? with
        | none => [a]
        | some z => a :: ((b :: rest).dropLast.filter (fun s => s ≠ [])) ++ [z] := rfl

/-- The interior filter of `urljoin` on the segment shape our join
produces: base segments headed by an empty segment, the empty junction
segment, then the nonempty relative segments; exactly the junction empty
segment is dropped. -/
theorem interiorFilter_mid (tA bs : List (List Char)) (z : List Char)
    (htA : ∀ x ∈ tA, x ≠ []) (hbs : ∀ x ∈ bs, x ≠ []) :
    interiorFilter (([] :: tA) ++ ([] :: (bs ++ [z])))
      = ([] :: tA) ++ (bs ++ [z]) := by
  rcases tA with _ | ⟨t, ts⟩
  · show interiorFilter ([] :: [] :: (bs ++ [z])) = _
    rw [interiorFilter_cons_cons]
    rw [show ([] : List Char) :: (bs ++ [z]) = (([] : List Char) :: bs) ++ [z] by simp]
    rw [List.getLast?_concat, List.dropLast_concat]
    have hfil : ((([] : List Char) :: bs).filter (fun s => s ≠ [])) = bs := by
      rw [List.filter_cons, if_neg (by simp), filter_ne_nil_eq_self bs hbs]
    rw [hfil]
    simp
  · show interiorFilter ([] :: t :: (ts ++ ([] :: (bs ++ [z])))) = _
    rw [interiorFilter_cons_cons]
    rw [show t :: (ts ++ (([] : List Char) :: (bs ++ [z])))
          = (t :: ts ++ ([] : List Char) :: bs) ++ [z] by simp]
    rw [List.getLast?_concat, List.dropLast_concat]
    have hfil : ((t :: ts ++ ([] : List Char) :: bs).filter (fun s => s ≠ []))
        = t :: ts ++ bs := by
      have ht : t ≠ [] := htA t (List.mem_cons_self t ts)
      have hts : ∀ x ∈ ts, x ≠ [] := fun y hy => htA y (List.mem_cons_of_mem t hy)
      rw [List.cons_append, List.filter_cons, if_pos (by simp [ht]), List.filter_append,
        filter_ne_nil_eq_self ts hts, List.filter_cons, if_neg (by simp),
        filter_ne_nil_eq_self bs hbs, List.cons_append]
    rw [hfil]
    simp

/-- A plain path character is not a split point. -/
theorem plainPathChar_spec (c : Char) (h : plainPathChar c = true) :
    c ≠ '#' ∧ c ≠ '?' ∧ c ≠ ';' := by
  refine ⟨?_, ?_, ?_⟩ <;> rintro rfl <;> exact absurd h (by decide)

/-- A non-delimiter netloc character is none of `/`, `?`, `#`. -/
theorem netlocDelim_false_spec (c : Char) (h : netlocDelim c = false) :
    c ≠ '/' ∧ c ≠ '?' ∧ c ≠ '#' := by
  refine ⟨?_, ?_, ?_⟩ <;> rintro rfl <;> exact absurd h (by decide)

/-- `removeUnsafe` is the identity on clean input. -/
theorem removeUnsafe_eq_self (l : List Char) (h : ∀ c ∈ l, urlClean c = true) :
    removeUnsafe l = l := by
  apply List.filter_eq_self.2
  intro c hc
  exact h c hc

/-- `urlsplit` on the well-formed base `scheme://netloc/path/` built by the
client: everything lands in the expected component. -/
theorem urlsplitL_base_eq (s n p : List Char)
    (hsne : s ≠ [])
    (hsh : ∀ c, s.head? = some c → c.isAlpha = true)
    (hsc : ∀ c ∈ s, schemeChar c = true)
    (hn : ∀ c ∈ n, netlocDelim c = false ∧ urlClean c = true)
    (hp : p = [] ∨ p.head? = some '/')
    (hpc : ∀ c ∈ p, plainPathChar c = true ∧ urlClean c = true) :
    urlsplitL (s ++ ':' :: '/' :: '/' :: (n ++ (p ++ ['/']))) []
      = ⟨s.map Char.toLower, n, p ++ ['/'], [], []⟩ := by
  have hclean : removeUnsafe (s ++ ':' :: '/' :: '/' :: (n ++ (p ++ ['/'])))
      = s ++ ':' :: '/' :: '/' :: (n ++ (p ++ ['/'])) := by
    apply removeUnsafe_eq_self
    intro c hc
    simp only [List.mem_append, List.mem_cons] at hc
    rcases hc with hs | rfl | rfl | rfl | hnp
    · exact schemeChar_clean c (hsc c hs)
    · decide
    · decide
    · decide
    · rcases hnp with hnn | hc1 | rfl | hfalse
      · exact (hn c hnn).2
      · exact (hpc c hc1).2
      · decide
      · exact absurd hfalse (List.not_mem_nil c)
  have htd := takeWhile_dropWhile_append_cons (fun c => c != ':') s ':'
    ('/' :: '/' :: (n ++ (p ++ ['/'])))
    (fun c hc => schemeChar_bne_colon c (hsc c hc)) (by decide)
  have hnsplit : splitNetlocL (n ++ (p ++ ['/'])) = (n, p ++ ['/']) := by
    have harg : ∀ (t : List Char), n ++ ('/' :: t) = n ++ (p ++ ['/']) →
        splitNetlocL (n ++ ('/' :: t)) = (n, '/' :: t) := by
      intro t _
      have h2 := takeWhile_dropWhile_append_cons (fun c => !netlocDelim c) n '/' t
        (fun c hc => by simp [(hn c hc).1]) (by decide)
      simp only [splitNetlocL, h2.1, h2.2]
    rcases hp with rfl | hph
    · have := harg [] (by simp)
      simpa using this
    · rcases p with _ | ⟨c1, p'⟩
      · simp at hph
      · have hc1 : c1 = '/' := by
          simp only [List.head?_cons, Option.some.injEq] at hph
          exact hph
        subst hc1
        have := harg (p' ++ ['/']) (by simp)
        simpa using this
  rcases s with _ | ⟨c0, cs⟩
  · exact absurd rfl hsne
  have hc0 : c0.isAlpha = true := hsh c0 rfl
  have hall : (c0 :: cs).all schemeChar = true := List.all_eq_true.2 hsc
  have hcont1 : '#' ∉ p := fun hc1 => (plainPathChar_spec '#' (hpc '#' hc1).1).1 rfl
  have hcont2 : '?' ∉ p := fun hc1 => (plainPathChar_spec '?' (hpc '?' hc1).1).2.1 rfl
  simp only [urlsplitL, hclean]
  rw [show removeUnsafe ([] : List Char) = [] from rfl]
  simp only [splitSchemeL, htd.1, htd.2]
  rw [hc0, hall]
  simp [hnsplit, hcont1, hcont2]

/-- `urlsplit` on a plain relative path: no scheme is extracted (the default
is inherited), no netloc, and the whole text is the path. -/
theorem urlsplitL_rel_eq (rel dflt : List Char)
    (hh : rel.head? ≠ some '/')
    (hcolon : ':' ∉ rel)
    (hrc : ∀ c ∈ rel, plainPathChar c = true ∧ urlClean c = true)
    (hd : removeUnsafe dflt = dflt) :
    urlsplitL rel dflt = ⟨dflt, [], rel, [], []⟩ := by
  have hclean : removeUnsafe rel = rel :=
    removeUnsafe_eq_self rel (fun c hc => (hrc c hc).2)
  have htd := takeWhile_dropWhile_of_forall (fun c => c != ':') rel
    (fun c hc => by
      simp only [bne_iff_ne, ne_eq, decide_eq_true_eq]
      rintro rfl
      exact hcolon hc)
  have htake2 : rel.take 2 ≠ ['/', '/'] := by
    rcases rel with _ | ⟨c, rest⟩
    · simp
    · intro heq
      have hc : c = '/' := by
        rcases rest with _ | ⟨c2, rest2⟩ <;> simp [List.take] at heq <;> tauto
      exact hh (by simp [hc])
  have hcont1 : '#' ∉ rel := fun hmem => (plainPathChar_spec '#' (hrc '#' hmem).1).1 rfl
  have hcont2 : '?' ∉ rel := fun hmem => (plainPathChar_spec '?' (hrc '?' hmem).1).2.1 rfl
  simp only [urlsplitL, hclean, hd]
  simp only [splitSchemeL, htd.1, htd.2]
  simp [htake2, hcont1, hcont2]

/-- `urlparse` on the well-formed base: no `;params` split happens. -/
theorem urlparseL_base_eq (s n p : List Char)
    (hsne : s ≠ [])
    (hsh : ∀ c, s.head? = some c → c.isAlpha = true)
    (hsc : ∀ c ∈ s, schemeChar c = true)
    (hn : ∀ c ∈ n, netlocDelim c = false ∧ urlClean c = true)
    (hp : p = [] ∨ p.head? = some '/')
    (hpc : ∀ c ∈ p, plainPathChar c = true ∧ urlClean c = true) :
    urlparseL (s ++ ':' :: '/' :: '/' :: (n ++ (p ++ ['/']))) []
      = ⟨s.map Char.toLower, n, p ++ ['/'], [], [], []⟩ := by
  have hsemi : (p ++ ['/']).contains ';' = false := by
    apply contains_eq_false_of_not_mem
    intro hmem
    rcases List.mem_append.1 hmem with hc1 | hc1
    · exact (plainPathChar_spec ';' (hpc ';' hc1).1).2.2 rfl
    · simp at hc1
  simp only [urlparseL, urlsplitL_base_eq s n p hsne hsh hsc hn hp hpc]
  rw [if_neg (fun h => by rw [hsemi] at h; exact Bool.false_ne_true h.2)]

/-- `urlparse` on a plain relative path. -/
theorem urlparseL_rel_eq (rel dflt : List Char)
    (hh : rel.head? ≠ some '/')
    (hcolon : ':' ∉ rel)
    (hrc : ∀ c ∈ rel, plainPathChar c = true ∧ urlClean c = true)
    (hd : removeUnsafe dflt = dflt) :
    urlparseL rel dflt = ⟨dflt, [], rel, [], [], []⟩ := by
  have hsemi : rel.contains ';' = false := by
    apply contains_eq_false_of_not_mem
    intro hmem
    exact (plainPathChar_spec ';' (hrc ';' hmem).1).2.2 rfl
  simp only [urlparseL, urlsplitL_rel_eq rel dflt hh hcolon hrc hd]
  rw [if_neg (fun h => by rw [hsemi] at h; exact Bool.false_ne_true h.2)]

/-- CPython `urljoin` on the client's shape: a well-formed
`scheme://netloc/path` base ending in a slash joined with a plain relative
path concatenates them with exactly that one slash in between. -/
theorem urljoinL_plain (s n p rel : List Char)
    (hsne : s ≠ [])
    (hsh : ∀ c, s.head? = some c → c.isAlpha = true)
    (hsc : ∀ c ∈ s, schemeChar c = true)
    (hslow : s.map Char.toLower = s)
    (hrelmem : usesRelative.contains (String.mk s) = true)
    (hnetmem : usesNetloc.contains (String.mk s) = true)
    (hn_ne : n ≠ [])
    (hn : ∀ c ∈ n, netlocDelim c = false ∧ urlClean c = true)
    (hp : p = [] ∨ p.head? = some '/')
    (hpc : ∀ c ∈ p, plainPathChar c = true ∧ urlClean c = true)
    (hptail : ∀ seg ∈ (splitSlash p).tail, seg ≠ [] ∧ seg ≠ ['.'] ∧ seg ≠ ['.', '.'])
    (hrel_ne : rel ≠ [])
    (hrh : rel.head? ≠ some '/')
    (hrcolon : ':' ∉ rel)
    (hrc : ∀ c ∈ rel, plainPathChar c = true ∧ urlClean c = true)
    (hrsegs : ∀ seg ∈ splitSlash rel, seg ≠ [] ∧ seg ≠ ['.'] ∧ seg ≠ ['.', '.']) :
    urljoinL (s ++ ':' :: '/' :: '/' :: (n ++ (p ++ ['/']))) rel
      = s ++ ':' :: '/' :: '/' :: (n ++ (p ++ ('/' :: rel))) := by
  have hb0 := urlparseL_base_eq s n p hsne hsh hsc hn hp hpc
  rw [hslow] at hb0
  have hdclean : removeUnsafe s = s :=
    removeUnsafe_eq_self s (fun c hc => schemeChar_clean c (hsc c hc))
  have hr0 := urlparseL_rel_eq rel s hrh hrcolon hrc hdclean
  have hbase_ne : s ++ ':' :: '/' :: '/' :: (n ++ (p ++ ['/'])) ≠ [] := by simp
  simp only [urljoinL, if_neg hbase_ne, if_neg hrel_ne, hb0, hr0]
  rw [if_neg (fun h => h.elim (fun h1 => h1 rfl) (fun h2 => h2 hrelmem)),
      if_neg (fun h => h.2 rfl),
      if_neg (fun h => hrel_ne h.1),
      if_pos hnetmem]
  obtain ⟨c, rest, rfl⟩ := List.exists_cons_of_ne_nil hrel_ne
  have hcslash : c ≠ '/' := by
    intro hcc
    exact hrh (by simp [hcc])
  have h3 : List.take 1 (c :: rest) ≠ ['/'] := by
    intro hx
    rw [show List.take 1 (c :: rest) = [c] by simp] at hx
    injection hx with hx1 hx2
    exact hcslash hx1
  have h1 : splitSlash (p ++ ['/']) = splitSlash p ++ [[]] := splitSlash_append_slash p
  obtain ⟨tA, hpA⟩ : ∃ tA, splitSlash p = [] :: tA := by
    rcases hp with rfl | hph
    · exact ⟨[], rfl⟩
    · rcases p with _ | ⟨c1, p'⟩
      · simp at hph
      · have hc1 : c1 = '/' := by
          simp only [List.head?_cons, Option.some.injEq] at hph
          exact hph
        subst hc1
        exact ⟨splitSlash p', by simp [splitSlash]⟩
  have htailA : ∀ x ∈ tA, x ≠ [] ∧ x ≠ ['.'] ∧ x ≠ ['.', '.'] := by
    intro x hx
    apply hptail
    rw [hpA]
    simpa using hx
  obtain ⟨bs, z, hbz⟩ : ∃ bs z, splitSlash (c :: rest) = bs ++ [z] := by
    rcases List.eq_nil_or_concat (splitSlash (c :: rest)) with hnil | ⟨bs, z, hz⟩
    · exact absurd hnil (splitSlash_ne_nil _)
    · exact ⟨bs, z, by simpa using hz⟩
  have hbsne : ∀ x ∈ bs, x ≠ [] := by
    intro x hx
    exact (hrsegs x (by rw [hbz]; exact List.mem_append.2 (Or.inl hx))).1
  have hzmem : z ∈ splitSlash (c :: rest) := by
    rw [hbz]
    exact List.mem_append.2 (Or.inr (List.mem_singleton.2 rfl))
  have hzspec := hrsegs z hzmem
  simp only [h1]
  simp only [List.getLast?_concat]
  rw [if_neg (show ¬ (some ([] : List Char) ≠ some []) from fun hne => hne rfl)]
  rw [if_neg h3]
  have hshape : (splitSlash p ++ [[]]) ++ splitSlash (c :: rest)
      = ([] :: tA) ++ ([] :: (bs ++ [z])) := by
    rw [hpA, hbz]
    simp
  rw [hshape, interiorFilter_mid tA bs z (fun x hx => (htailA x hx).1) hbsne]
  have hsegback : ([] :: tA) ++ (bs ++ [z]) = splitSlash p ++ splitSlash (c :: rest) := by
    rw [hpA, hbz]
  have hlast : (([] :: tA) ++ (bs ++ [z])).getLast? = some z := by
    rw [show ([] :: tA) ++ (bs ++ [z]) = (([] :: tA) ++ bs) ++ [z] by simp,
      List.getLast?_concat]
  rw [hlast]
  rw [if_neg (show ¬ (some z = some ['.'] ∨ some z = some ['.', '.']) from fun h => h.elim
    (fun h1 => hzspec.2.1 (Option.some.inj h1))
    (fun h2 => hzspec.2.2 (Option.some.inj h2)))]
  have hresolve : resolveSegments (([] :: tA) ++ (bs ++ [z])) = ([] :: tA) ++ (bs ++ [z]) := by
    apply resolveSegments_no_dots
    intro seg hseg
    simp only [List.mem_append, List.mem_cons, List.mem_singleton] at hseg
    rcases hseg with (rfl | htA) | hbs | rfl | hfalse
    · exact ⟨by simp, by simp⟩
    · exact ⟨(htailA seg htA).2.1, (htailA seg htA).2.2⟩
    · have := hrsegs seg (by rw [hbz]; exact List.mem_append.2 (Or.inl hbs))
      exact ⟨this.2.1, this.2.2⟩
    · exact ⟨hzspec.2.1, hzspec.2.2⟩
    · exact absurd hfalse (List.not_mem_nil seg)
  rw [hresolve, hsegback,
    joinSlash_append _ _ (splitSlash_ne_nil p) (splitSlash_ne_nil (c :: rest)),
    joinSlash_splitSlash, joinSlash_splitSlash]
  rw [if_neg (by simp : ¬ (p ++ '/' :: c :: rest = []))]
  have htake1 : (p ++ '/' :: c :: rest).take 1 = ['/'] := by
    rcases hp with rfl | hph
    · simp [List.take]
    · rcases p with _ | ⟨c1, p'⟩
      · simp [List.take]
      · have hc1 : c1 = '/' := by
          simp only [List.head?_cons, Option.some.injEq] at hph
          exact hph
        subst hc1
        simp [List.take]
  simp only [urlunparseL, urlunsplitL]
  simp only [if_neg (show ¬ (([] : List Char) ≠ []) from fun h => h rfl)]
  rw [if_pos (Or.inl hn_ne)]
  rw [if_neg (show ¬ (p ++ '/' :: c :: rest ≠ [] ∧ (p ++ '/' :: c :: rest).take 1 ≠ ['/'])
    from fun h => h.2 htake1)]
  rw [if_pos hsne]

/-- Trailing-slash stripping ignores one more trailing slash. -/
theorem rstripSlashes_append_slash (u : String) :
    rstripSlashes (u ++ "/") = rstripSlashes u := by
  have hd : (u ++ "/").toList = u.toList ++ ['/'] := by
    show (u ++ "/").data = u.data ++ ['/']
    rw [String.data_append]
  simp [rstripSlashes, String.toList, hd, List.dropWhile_cons]

/-- Leading-slash stripping ignores one more leading slash. -/
theorem lstripSlashes_cons_slash (e : String) :
    lstripSlashes ("/" ++ e) = lstripSlashes e := by
  have hd : ("/" ++ e).toList = '/' :: e.toList := by
    show ("/" ++ e).data = '/' :: e.data
    rw [String.data_append]
    rfl
  simp [lstripSlashes, String.toList, hd, List.dropWhile_cons]

/-- The head of a `dropWhile` result fails the predicate. -/
theorem head_dropWhile_false (q : Char → Bool) (l : List Char) (c : Char)
    (h : (l.dropWhile q).head? = some c) : q c = false := by
  induction l with
  | nil => simp at h
  | cons a rest ih =>
    rw [List.dropWhile_cons] at h
    by_cases ha : q a = true
    · rw [if_pos ha] at h
      exact ih h
    · rw [if_neg ha] at h
      simp only [List.head?_cons, Option.some.injEq] at h
      rw [← h]
      exact Bool.eq_false_iff.2 ha

theorem url_join_normalization (u e : String) :
    (builtUrl (u ++ "/") e = builtUrl u e ∧
     builtUrl u ("/" ++ e) = builtUrl u e ∧
     builtUrl (u ++ "/") ("/" ++ e) = builtUrl u e) ∧
    (∀ s n p rel : List Char,
      (rstripSlashes u).toList = s ++ ':' :: '/' :: '/' :: (n ++ p) →
      (lstripSlashes e).toList = rel →
      s ≠ [] →
      (∀ c, s.head? = some c → c.isAlpha = true) →
      (∀ c ∈ s, schemeChar c = true) →
      s.map Char.toLower = s →
      usesRelative.contains (String.mk s) = true →
      usesNetloc.contains (String.mk s) = true →
      n ≠ [] →
      (∀ c ∈ n, netlocDelim c = false ∧ urlClean c = true) →
      (p = [] ∨ p.head? = some '/') →
      (∀ c ∈ p, plainPathChar c = true ∧ urlClean c = true) →
      (∀ seg ∈ (splitSlash p).tail, seg ≠ [] ∧ seg ≠ ['.'] ∧ seg ≠ ['.', '.']) →
      rel ≠ [] →
      ':' ∉ rel →
      (∀ c ∈ rel, plainPathChar c = true ∧ urlClean c = true) →
      (∀ seg ∈ splitSlash rel, seg ≠ [] ∧ seg ≠ ['.'] ∧ seg ≠ ['.', '.']) →
      builtUrl u e = rstripSlashes u ++ "/" ++ lstripSlashes e) := by
  constructor
  · refine ⟨?_, ?_, ?_⟩
    · show requestUrl (rstripSlashes (u ++ "/")) e = requestUrl (rstripSlashes u) e
      rw [rstripSlashes_append_slash]
    · show urljoinS (rstripSlashes u ++ "/") (lstripSlashes ("/" ++ e))
        = urljoinS (rstripSlashes u ++ "/") (lstripSlashes e)
      rw [lstripSlashes_cons_slash]
    · show urljoinS (rstripSlashes (u ++ "/") ++ "/") (lstripSlashes ("/" ++ e))
        = urljoinS (rstripSlashes u ++ "/") (lstripSlashes e)
      rw [rstripSlashes_append_slash, lstripSlashes_cons_slash]
  · intro s n p rel hcu hrel hsne hsh hsc hslow hm1 hm2 hnne hn hp hpc hptail hrne hrcolon hrc hrsegs
    have hreldef : e.toList.dropWhile (fun c => c = '/') = rel := hrel
    have hrh : rel.head? ≠ some '/' := by
      intro hh
      have := head_dropWhile_false (fun c => c = '/') e.toList '/' (by rw [hreldef]; exact hh)
      simp at this
    have hjoin := urljoinL_plain s n p rel hsne hsh hsc hslow hm1 hm2 hnne hn hp hpc hptail
      hrne hrh hrcolon hrc hrsegs
    show urljoinS (rstripSlashes u ++ "/") (lstripSlashes e) = _
    have hcud : (rstripSlashes u).data = s ++ ':' :: '/' :: '/' :: (n ++ p) := hcu
    have harg1 : (rstripSlashes u ++ "/").toList
        = s ++ ':' :: '/' :: '/' :: (n ++ (p ++ ['/'])) := by
      show (rstripSlashes u ++ "/").data = _
      rw [String.data_append, hcud]
      simp
    apply String.ext
    show (urljoinS (rstripSlashes u ++ "/") (lstripSlashes e)).data = _
    have hstep : (urljoinS (rstripSlashes u ++ "/") (lstripSlashes e)).data
        = urljoinL (s ++ ':' :: '/' :: '/' :: (n ++ (p ++ ['/']))) rel := by
      show urljoinL (rstripSlashes u ++ "/").toList (lstripSlashes e).toList = _
      rw [harg1, hrel]
    rw [hstep, hjoin]
    rw [String.data_append, String.data_append]
    rw [show (rstripSlashes u).data = s ++ ':' :: '/' :: '/' :: (n ++ p) from hcu]
    rw [show (lstripSlashes e).data = rel from hrel]
    simp

/-- Witness for `url_join_normalization` at the client's own shapes:
base `http://localhost:8080` (with and without trailing slash) and endpoint
`/rest/v1/users` (with and without leading slash) all join to
`http://localhost:8080/rest/v1/users`, with exactly one separating slash. -/
theorem url_join_normalization_witness :
    builtUrl ("http://localhost:8080" ++ "/") "/rest/v1/users"
      = builtUrl "http://localhost:8080" "/rest/v1/users" ∧
    builtUrl "http://localhost:8080" ("/" ++ "/rest/v1/users")
      = builtUrl "http://localhost:8080" "/rest/v1/users" ∧
    builtUrl "http://localhost:8080" "/rest/v1/users"
      = rstripSlashes "http://localhost:8080" ++ "/" ++ lstripSlashes "/rest/v1/users" ∧
    rstripSlashes "http://localhost:8080" ++ "/" ++ lstripSlashes "/rest/v1/users"
      = "http://localhost:8080/rest/v1/users" :=
  ⟨(url_join_normalization "http://localhost:8080" "/rest/v1/users").1.1,
   (url_join_normalization "http://localhost:8080" "/rest/v1/users").1.2.1,
   (url_join_normalization "http://localhost:8080" "/rest/v1/users").2
     "http".toList "localhost:8080".toList [] "rest/v1/users".toList
     (by decide) (by decide) (by decide)
     (by
       intro c hc
       have h2 : some 'h' = some c := hc
       have h1 : c = 'h' := (Option.some.inj h2).symm
       subst h1
       decide)
     (by decide) (by decide) (by decide) (by decide) (by decide) (by decide)
     (Or.inl rfl) (by decide) (by decide) (by decide) (by decide) (by decide)
     (by decide),
   by decide⟩

/-- Counterexample to C8 as stated: with base `http://h` and endpoint
`a:b`, the joined URL is just `a:b` — `urljoin` treats `a:` as a scheme and
discards the base entirely, so there is no separating slash between base
and endpoint at all. -/
theorem url_join_scheme_endpoint_counterexample :
    builtUrl "http://h" "a:b" = "a:b" ∧
    "a:b" ≠ rstripSlashes "http://h" ++ "/" ++ lstripSlashes "a:b" :=
  ⟨by decide, by decide⟩
